import Mathlib

/-!
Verification development for the 13x-tech/relayer repository: a feed-to-event
bridge (feeder package and the rss-bridge main), a web-page metadata fetcher
(metadata package), and their supporting caches.  Go source operations are
embedded as executable Lean definitions; strings are modelled as sequences of
characters (exact for single-byte text, which is what the claims exercise),
machine integers as Nat and Int with explicit reductions modulo powers of two
where the Go code truncates.
-/

namespace Relayer

/-! ## String helpers modelling the Go standard library calls used by the code. -/

/-- Membership test modelling Go strings.HasPrefix on character lists. -/
def listStarts : List Char → List Char → Bool
  | _, [] => true
  | [], _ :: _ => false
  | a :: as, b :: bs => a == b && listStarts as bs

/-- Occurrence test for a contiguous sub-sequence, modelling Go strings.Contains. -/
def listHasSub : List Char → List Char → Bool
  | [], sub => sub.isEmpty
  | a :: as, sub => listStarts (a :: as) sub || listHasSub as sub

/-- Go strings.Contains on strings. -/
def goContains (s sub : String) : Bool := listHasSub s.toList sub.toList

/-- Go strings.HasPrefix on strings. -/
def goStartsWith (s pre : String) : Bool := listStarts s.toList pre.toList

/-! ## Feed items and event synthesis (feeder itemToTextNote). -/

/-- A parsed feed item as used by the bridge (gofeed.Item fields the code
reads).  The description field holds the text after the external
strip.StripTags collaborator has removed markup, since that collaborator is
an external library; the content field models gofeed Item.Content.
Timestamps are epoch seconds; none models a nil parsed time. -/
structure Item where
  title : List Char
  description : List Char
  link : List Char
  content : List Char
  published : Option Int
  updated : Option Int
  deriving Repr, DecidableEq

/-- A synthesized event (nostr.Event fields the claims are about).
Signatures are produced by an external collaborator and carry no
information about which item was synthesized, so they are not modelled. -/
structure Event where
  pubKey : String
  createdAt : Int
  kind : Nat
  content : List Char
  deriving Repr, DecidableEq

/-- Builds the pre-truncation content of itemToTextNote: the bolded title and
a blank line when the title is nonempty, followed by the stripped
description. -/
def builtContent (item : Item) : List Char :=
  (if item.title ≠ [] then ("**".toList ++ item.title ++ "**\n\n".toList) else [])
    ++ item.description

/-- The content of the note before the link paragraph: when the built content
exceeds 250 characters the code appends its first 249 characters and an
ellipsis onto the existing content. -/
def preLinkContent (item : Item) : List Char :=
  let c := builtContent item
  if c.length > 250 then c ++ (c.take 249 ++ "…".toList) else c

/-- Full note content: the pre-link content followed by the item link on its
own paragraph. -/
def noteContent (item : Item) : List Char :=
  preLinkContent item ++ "\n\n".toList ++ item.link

/-- Timestamp resolution of itemToTextNote: start from now, override with the
updated time when parsed, then override with the published time when
parsed. -/
def resolveCreatedAt (now : Int) (item : Item) : Int :=
  let t1 := now
  let t2 := match item.updated with
    | some u => u
    | none => t1
  match item.published with
  | some p => p
  | none => t2

/-- The itemToTextNote synthesis: builds the note content and resolves the
creation time, producing a kind-1 (text note) event for the given pubkey. -/
def itemToTextNote (pubkey : String) (now : Int) (item : Item) : Event :=
  { pubKey := pubkey
    createdAt := resolveCreatedAt now item
    kind := 1
    content := noteContent item }

/-! ## Watermark map (relay.lastEmitted) and the poller pass over one feed. -/

/-- A value stored in the lastEmitted concurrent map.  The Go code stores
untyped values and distinguishes at runtime between a uint32 encoding and an
int64 encoding, so the model keeps both constructors. -/
inductive WMVal
  | u32 (v : Nat)
  | i64 (v : Int)
  deriving Repr, DecidableEq

/-- The watermark map from feed URL to last-emitted value. -/
abbrev WM := List (String × WMVal)

/-- Lookup in the watermark map (sync.Map Load). -/
def wmLookup (wm : WM) (url : String) : Option WMVal :=
  match wm with
  | [] => none
  | (k, v) :: rest => if k = url then some v else wmLookup rest url

/-- Update of the watermark map (sync.Map Store): replaces the binding for
the key, appending when absent. -/
def wmStore (wm : WM) (url : String) (v : WMVal) : WM :=
  match wm with
  | [] => [(url, v)]
  | (k, w) :: rest => if k = url then (k, v) :: rest else (k, w) :: wmStore rest url v

/-- One iteration of the poller item loop in the rss-bridge Init goroutine:
synthesizes the event, loads the watermark, skips the item when no watermark
is recorded, and otherwise follows the runtime type switch of the source.
When the loaded value is a uint32 the emission condition is that the loaded
time is strictly before the event time; when it is an int64 the shadowed ok
flag from the failed uint32 assertion makes the disjunction vacuously true,
so the event is emitted unconditionally.  On emission the code stores the
loaded value back unchanged. -/
def pollItem (pubkey url : String) (now : Int) (wm : WM) (item : Item) :
    List Event × WM :=
  let evt := itemToTextNote pubkey now item
  match wmLookup wm url with
  | none => ([], wm)
  | some (WMVal.u32 v) =>
      if (v : Int) < evt.createdAt then ([evt], wmStore wm url (WMVal.u32 v))
      else ([], wm)
  | some (WMVal.i64 v) => ([evt], wmStore wm url (WMVal.i64 v))

/-- One poller pass over the items of a fixed feed, threading the watermark
map and collecting the events pushed to the relay updates channel in order. -/
def pollFeed (pubkey url : String) (now : Int) (wm : WM) :
    List Item → List Event × WM
  | [] => ([], wm)
  | item :: rest =>
      let (es, wm1) := pollItem pubkey url now wm item
      let (es2, wm2) := pollFeed pubkey url now wm1 rest
      (es ++ es2, wm2)

/-! ## The synchronous query path (store.QueryEvents). -/

/-- The persisted entity record binding a derived private key to a feed URL. -/
structure Entity where
  privateKey : String
  url : String
  deriving Repr, DecidableEq

/-- A parsed feed: the list of its items. -/
structure Feed where
  items : List Item
  deriving Repr, DecidableEq

/-- A subscription filter (the nostr.Filter fields QueryEvents reads).  The
ids field distinguishes a nil slice (none) from a present slice; tags models
the tag map as an association list. -/
structure Filter where
  ids : Option (List String)
  tags : List (String × List String)
  authors : List String
  kinds : Option (List Nat)
  since : Option Int
  untilT : Option Int
  deriving Repr, DecidableEq

/-- The pure collaborators QueryEvents consults: the entity store keyed by
pubkey (none covers both a missing key and an entry whose JSON does not
unmarshal, which the code skips identically), the feed cache or fetcher
result per URL, the profile-metadata synthesis for an entity (feedToSetMetadata
is defined outside the provided sources, so it stays an abstract function of
the pubkey and feed here), and the synthesis clock. -/
structure QEnv where
  db : String → Option Entity
  feeds : String → Except String Feed
  setMetaEvt : String → Feed → Event
  now : Int

/-- The since guard of QueryEvents: an event passes when no since bound is
set or its creation time is not before the bound. -/
def sinceOk (f : Filter) (t : Int) : Bool :=
  match f.since with
  | none => true
  | some s => !(t < s)

/-- The until guard of QueryEvents: an event passes when no until bound is
set or its creation time is not after the bound. -/
def untilOk (f : Filter) (t : Int) : Bool :=
  match f.untilT with
  | none => true
  | some u => !(u < t)

/-- Kind admission of QueryEvents: a nil kinds slice accepts every kind,
otherwise the kind must be listed. -/
def kindsAllow (f : Filter) (k : Nat) : Bool :=
  match f.kinds with
  | none => true
  | some ks => ks.contains k

/-- The text-note loop of QueryEvents for one feed: synthesizes each item,
applies the since and until guards, tracks in a uint32 the maximum creation
time among appended events (the Go conversion truncates modulo two to the
thirty-two), and returns the appended events with the final maximum. -/
def queryItems (pubkey : String) (now : Int) (f : Filter) :
    List Item → Nat → List Event × Nat
  | [], last => ([], last)
  | item :: rest, last =>
      let evt := itemToTextNote pubkey now item
      if sinceOk f evt.createdAt && untilOk f evt.createdAt then
        let last1 :=
          if (last : Int) < evt.createdAt then (evt.createdAt % 4294967296).toNat
          else last
        let (es, l2) := queryItems pubkey now f rest last1
        (evt :: es, l2)
      else queryItems pubkey now f rest last

/-- The per-author body of QueryEvents: loads the entity and feed, then runs
the kind-0 section and the kind-1 section.  A failed since or until check on
the profile-metadata event executes a continue of the authors loop, so it
aborts the whole author including its text notes, exactly as in the source.
The kind-1 section stores the computed uint32 maximum as the new watermark
for the feed URL. -/
def queryAuthor (env : QEnv) (f : Filter) (wm : WM) (pubkey : String) :
    List Event × WM :=
  match env.db pubkey with
  | none => ([], wm)
  | some entity =>
      match env.feeds entity.url with
      | Except.error _ => ([], wm)
      | Except.ok feed =>
          let textPart := fun (metaEvts : List Event) =>
            if kindsAllow f 1 then
              let (tes, last) := queryItems pubkey env.now f feed.items 0
              (metaEvts ++ tes, wmStore wm entity.url (WMVal.u32 last))
            else (metaEvts, wm)
          if kindsAllow f 0 then
            let evt := env.setMetaEvt pubkey feed
            if !(sinceOk f evt.createdAt) then ([], wm)
            else if !(untilOk f evt.createdAt) then ([], wm)
            else textPart [evt]
          else textPart []

/-- The QueryEvents entry point: a filter with a non-nil ids slice or a
non-empty tag map returns the nil slice immediately; otherwise the authors
are processed in order, threading the watermark map.  The third component
records whether the body past the early return was reached with any author
to process, that is whether any collaborator could be consulted. -/
def queryEvents (env : QEnv) (wm : WM) (f : Filter) :
    (List Event × Option String) × WM × Bool :=
  if f.ids.isSome || decide (0 < f.tags.length) then (([], none), wm, false)
  else
    let step := fun (acc : List Event × WM) (pk : String) =>
      let (es, w) := queryAuthor env f acc.2 pk
      (acc.1 ++ es, w)
    let (es, wm1) := f.authors.foldl step ([], wm)
    ((es, none), wm1, !f.authors.isEmpty)

/-! ## The feed cache wrapper (feeder parseFeed). -/

/-- The state of the feed cache as parseFeed observes it: the bindings of
live entries.  Capacity eviction and the 19 minute expiry are internal to the
external cache2go collaborator; an expired or evicted entry is simply absent
from this view. -/
abbrev FeedCache := List (String × Feed)

/-- Lookup in the feed cache view (cache2go Get on a live entry). -/
def cacheGet (c : FeedCache) (url : String) : Option Feed :=
  match c with
  | [] => none
  | (k, v) :: rest => if k = url then some v else cacheGet rest url

/-- Insertion into the feed cache view (cache2go Set). -/
def cacheSet (c : FeedCache) (url : String) (f : Feed) : FeedCache :=
  match c with
  | [] => [(url, f)]
  | (k, v) :: rest => if k = url then (k, f) :: rest else (k, v) :: cacheSet rest url f

/-- Clears the content field of every item of a feed, the cleanup parseFeed
performs before storing. -/
def clearContents (f : Feed) : Feed :=
  { items := f.items.map fun it => { it with content := [] } }

/-- The parseFeed wrapper: returns the cached feed on a hit; on a miss calls
the external gofeed parser (the fetch argument), propagates its error without
storing anything, and on success clears every item content field, stores the
feed under the URL and returns it.  The boolean records whether the parser
collaborator was invoked. -/
def parseFeed (fetch : String → Except String Feed) (c : FeedCache) (url : String) :
    Except String Feed × FeedCache × Bool :=
  match cacheGet c url with
  | some f => (Except.ok f, c, false)
  | none =>
      match fetch url with
      | Except.error e => (Except.error e, c, true)
      | Except.ok feed =>
          let cleaned := clearContents feed
          (Except.ok cleaned, cacheSet c url cleaned, true)

/-! ## The metadata fetcher gate (metadata FetchMetaData). -/

/-- A response to the preliminary HEAD request: its status code and
content-type header.  The source never reads the status of this response,
but the field is kept so the claims about it can be stated. -/
structure HeadResp where
  status : Nat
  contentType : String
  deriving Repr, DecidableEq

/-- A response to the full GET request: status code and whether the body
parses as a document. -/
structure GetResp where
  status : Nat
  parseOk : Bool
  deriving Repr, DecidableEq

/-- The possible outcomes of FetchMetaData, abstracting the extracted
metadata record itself. -/
inductive FetchOutcome
  | transportErr
  | invalidFormat
  | statusErr (code : Nat)
  | parseErr
  | ok
  deriving Repr, DecidableEq

/-- The HEAD content-type gate of FetchMetaData: the switch accepts a
content-type containing text/html, application/xhtml+xml or application/xml
and falls to the invalid-format default otherwise. -/
def validContentType (ct : String) : Bool :=
  goContains ct "text/html" || goContains ct "application/xhtml+xml"
    || goContains ct "application/xml"

/-- The control flow of FetchMetaData over the two HTTP exchanges: a HEAD
transport error (none) returns it; an inadmissible HEAD content-type returns
the invalid-format error before any GET; otherwise the GET is issued (second
component true) and a transport error, a non-200 status, or a body that does
not parse produce the corresponding errors, with success otherwise.  The
HEAD status code is never consulted. -/
def fetchMetaData (head : Option HeadResp) (get : Option GetResp) :
    FetchOutcome × Bool :=
  match head with
  | none => (FetchOutcome.transportErr, false)
  | some h =>
      if !(validContentType h.contentType) then (FetchOutcome.invalidFormat, false)
      else
        match get with
        | none => (FetchOutcome.transportErr, true)
        | some g =>
            if g.status ≠ 200 then (FetchOutcome.statusErr g.status, true)
            else if !g.parseOk then (FetchOutcome.parseErr, true)
            else (FetchOutcome.ok, true)

/-! ## The feed locator (feeder getFeedURL and urljoin). -/

/-- A parsed URL as the urljoin helper uses it: scheme, host and path.  This
models Go net/url.Parse for the scheme://host/path shape the locator handles;
an input without the scheme separator is treated as a bare path, matching the
Go parser on scheme-less inputs. -/
structure GoURL where
  scheme : String
  host : String
  path : String
  deriving Repr, DecidableEq

/-- Parses a URL string into scheme, host and path at the first scheme
separator and the first slash after it. -/
def parseURL (s : String) : GoURL :=
  match s.splitOn "://" with
  | [only] => { scheme := "", host := "", path := only }
  | [] => { scheme := "", host := "", path := "" }
  | pre :: rest =>
      let after := String.intercalate "://" rest
      match after.splitOn "/" with
      | [] => { scheme := pre, host := "", path := "" }
      | h :: ps =>
          { scheme := pre, host := h
            path := if ps.isEmpty then "" else "/" ++ String.intercalate "/" ps }

/-- Reassembles a parsed URL, inserting a slash between host and a relative
path as Go URL.String does. -/
def urlString (u : GoURL) : String :=
  if u.scheme = "" then u.path
  else
    u.scheme ++ "://" ++ u.host ++
      (if u.path ≠ "" ∧ ¬(goStartsWith u.path "/" = true) then "/" ++ u.path else u.path)

/-- One step of the Go path.Clean component scan: empty and dot components
are dropped, a dot-dot pops a poppable component, and other components are
pushed.  The stack is kept in reverse order. -/
def cleanStep (rooted : Bool) (stack : List String) (c : String) : List String :=
  if c = "" ∨ c = "." then stack
  else if c = ".." then
    match stack with
    | [] => if rooted then [] else [".."]
    | top :: rest => if top = ".." then c :: stack else rest
  else c :: stack

/-- The Go path.Clean function on slash-separated paths. -/
def pathClean (p : String) : String :=
  if p = "" then "."
  else
    let rooted := goStartsWith p "/"
    let stack := (p.splitOn "/").foldl (cleanStep rooted) []
    let body := String.intercalate "/" stack.reverse
    if rooted then (if body = "" then "/" else "/" ++ body)
    else (if body = "" then "." else body)

/-- The Go path.Join function on two elements: skips leading empty elements
and cleans the slash-joined remainder. -/
def pathJoin (a b : String) : String :=
  if a ≠ "" then pathClean (a ++ "/" ++ b)
  else if b ≠ "" then pathClean b
  else ""

/-- The urljoin helper of the feeder: parses the base URL, joins its path
with the element, and reassembles.  Parsing is modelled as total, matching
Go net/url.Parse which accepts every input the locator passes here. -/
def urljoin (baseUrl elem : String) : String :=
  let u := parseURL baseUrl
  urlString { u with path := pathJoin u.path elem }

/-- A link element of an HTML document: its type attribute and href. -/
structure LinkEl where
  typeAttr : String
  href : String
  deriving Repr, DecidableEq

/-- The outcome of the HTTP GET the locator issues: a transport error, or a
response with status, content-type, and the link elements of the body when
it parses as a document (none models a parse failure). -/
inductive GetOutcome
  | err
  | resp (status : Nat) (contentType : String) (doc : Option (List LinkEl))
  deriving Repr, DecidableEq

/-- The fixed feed MIME markers, in the priority order of the source. -/
def feedTypes : List String :=
  ["rss+xml", "atom+xml", "feed+json", "text/xml", "application/xml"]

/-- The href of the first link whose type attribute contains the marker,
empty when there is none, modelling the goquery selection with a contains
attribute match. -/
def firstHref (links : List LinkEl) (typ : String) : String :=
  match links.filter (fun l => goContains l.typeAttr typ) with
  | [] => ""
  | l :: _ => l.href

/-- The link scan of getFeedURL over the markers in priority order: an empty
href moves on, an absolute href is returned as is, a relative one is joined
against the page URL. -/
def linkSearch (url : String) (links : List LinkEl) : List String → String
  | [] => ""
  | typ :: rest =>
      let href := firstHref links typ
      if href = "" then linkSearch url links rest
      else if goStartsWith href "http" then href
      else urljoin url href

/-- The getFeedURL locator on the outcome of its GET: a transport error or a
status of at least 300 is not-found; a content-type containing a feed marker
returns the input URL; a text/html content-type scans the document links;
anything else is not-found. -/
def getFeedURL (url : String) (r : GetOutcome) : String :=
  match r with
  | GetOutcome.err => ""
  | GetOutcome.resp status ct doc =>
      if 300 ≤ status then ""
      else if feedTypes.any (fun t => goContains ct t) then url
      else if goContains ct "text/html" then
        match doc with
        | none => ""
        | some links => linkSearch url links feedTypes
      else ""

/-- Transcription of the amended locate claim: the conditions under which
locate reports not-found — transport error, status at least 300 (which
includes every 3xx), or no feed marker in the content-type together with no
usable feed link (not an HTML response, an unparsable body, or no link with
a feed marker type and a nonempty href). -/
def locateNotFoundSpec (r : GetOutcome) : Bool :=
  match r with
  | GetOutcome.err => true
  | GetOutcome.resp status ct doc =>
      if 300 ≤ status then true
      else if feedTypes.any (fun t => goContains ct t) then false
      else if goContains ct "text/html" then
        match doc with
        | none => true
        | some links => feedTypes.all (fun t => firstHref links t == "")
      else true

/-! ## SHA-256, HMAC and hex encoding (feeder privateKeyFromFeed).

The derivation calls the Go standard library crypto primitives; they are
embedded here from FIPS 180-4 and RFC 2104 so the derived key is a concrete
computable function, validated below against published test vectors.
Bytes are Nat below 256 and words Nat below two to the thirty-two. -/

/-- Reduction to a 32-bit word. -/
def w32 (n : Nat) : Nat := n % 4294967296

/-- 32-bit wrapping addition. -/
def wadd (a b : Nat) : Nat := w32 (a + b)

/-- 32-bit right rotation of a word. -/
def rotr (n x : Nat) : Nat := w32 ((x >>> n) ||| (x <<< (32 - n)))

def bsig0 (x : Nat) : Nat := (rotr 2 x) ^^^ (rotr 13 x) ^^^ (rotr 22 x)

def bsig1 (x : Nat) : Nat := (rotr 6 x) ^^^ (rotr 11 x) ^^^ (rotr 25 x)

def ssig0 (x : Nat) : Nat := (rotr 7 x) ^^^ (rotr 18 x) ^^^ (x >>> 3)

def ssig1 (x : Nat) : Nat := (rotr 17 x) ^^^ (rotr 19 x) ^^^ (x >>> 10)

/-- The choose function; complement taken by xor against 32 one bits. -/
def chF (x y z : Nat) : Nat := (x &&& y) ^^^ ((x ^^^ 4294967295) &&& z)

def majF (x y z : Nat) : Nat := (x &&& y) ^^^ (x &&& z) ^^^ (y &&& z)

/-- The SHA-256 round constants. -/
def k256 : List Nat :=
  [1116352408, 1899447441, 3049323471, 3921009573,
   961987163, 1508970993, 2453635748, 2870763221,
   3624381080, 310598401, 607225278, 1426881987,
   1925078388, 2162078206, 2614888103, 3248222580,
   3835390401, 4022224774, 264347078, 604807628,
   770255983, 1249150122, 1555081692, 1996064986,
   2554220882, 2821834349, 2952996808, 3210313671,
   3336571891, 3584528711, 113926993, 338241895,
   666307205, 773529912, 1294757372, 1396182291,
   1695183700, 1986661051, 2177026350, 2456956037,
   2730485921, 2820302411, 3259730800, 3345764771,
   3516065817, 3600352804, 4094571909, 275423344,
   430227734, 506948616, 659060556, 883997877,
   958139571, 1322822218, 1537002063, 1747873779,
   1955562222, 2024104815, 2227730452, 2361852424,
   2428436474, 2756734187, 3204031479, 3329325298]

/-- The eight-word SHA-256 state. -/
structure H8 where
  a : Nat
  b : Nat
  c : Nat
  d : Nat
  e : Nat
  f : Nat
  g : Nat
  h : Nat
  deriving Repr, DecidableEq

/-- The SHA-256 initial state. -/
def initH : H8 :=
  { a := 1779033703, b := 3144134277, c := 1013904242, d := 2773480762
    e := 1359893119, f := 2600822924, g := 528734635, h := 1541459225 }

/-- Big-endian length field of the padding, eight bytes of the bit length. -/
def lenBytes (n : Nat) : List Nat :=
  [(n >>> 56) % 256, (n >>> 48) % 256, (n >>> 40) % 256, (n >>> 32) % 256,
   (n >>> 24) % 256, (n >>> 16) % 256, (n >>> 8) % 256, n % 256]

/-- SHA-256 message padding to a multiple of 64 bytes. -/
def padBytes (msg : List Nat) : List Nat :=
  let len := msg.length
  let zeros := (64 - ((len + 9) % 64)) % 64
  msg ++ [128] ++ List.replicate zeros 0 ++ lenBytes (8 * len)

/-- Accumulating scan splitting a byte list into blocks: cur holds the
current block in reverse and k the remaining capacity of that block. -/
def chunksGo : List Nat → List Nat → Nat → List (List Nat)
  | [], cur, _ => if cur.isEmpty then [] else [cur.reverse]
  | b :: rest, cur, k =>
      if k = 1 then ((b :: cur).reverse) :: chunksGo rest [] 64
      else chunksGo rest (b :: cur) (k - 1)

/-- Splits a byte list into blocks of 64. -/
def chunks64 (l : List Nat) : List (List Nat) := chunksGo l [] 64

/-- A big-endian word from four bytes. -/
def beWord (b0 b1 b2 b3 : Nat) : Nat :=
  ((b0 % 256) <<< 24) ||| ((b1 % 256) <<< 16) ||| ((b2 % 256) <<< 8) ||| (b3 % 256)

/-- The sixteen initial schedule words of a block. -/
def initWords (block : List Nat) : List Nat :=
  (List.range 16).map fun i =>
    beWord (block.getD (4 * i) 0) (block.getD (4 * i + 1) 0)
      (block.getD (4 * i + 2) 0) (block.getD (4 * i + 3) 0)

/-- The next message-schedule word from the current schedule. -/
def nextW (ws : List Nat) : Nat :=
  let l := ws.length
  wadd (wadd (ssig1 (ws.getD (l - 2) 0)) (ws.getD (l - 7) 0))
    (wadd (ssig0 (ws.getD (l - 15) 0)) (ws.getD (l - 16) 0))

/-- Extends the schedule by the given number of words. -/
def extendWs (ws : List Nat) : Nat → List Nat
  | 0 => ws
  | n + 1 => extendWs (ws ++ [nextW ws]) n

/-- The full 64-word message schedule of a block. -/
def schedule (block : List Nat) : List Nat := extendWs (initWords block) 48

/-- One SHA-256 compression round on the state, given the schedule word and
round constant. -/
def sha256Round (st : H8) (wk : Nat × Nat) : H8 :=
  let t1 := wadd st.h (wadd (bsig1 st.e) (wadd (chF st.e st.f st.g) (wadd wk.2 wk.1)))
  let t2 := wadd (bsig0 st.a) (majF st.a st.b st.c)
  { a := wadd t1 t2, b := st.a, c := st.b, d := st.c
    e := wadd st.d t1, f := st.e, g := st.f, h := st.g }

/-- Compression of one 64-byte block into the running state. -/
def compress (st : H8) (block : List Nat) : H8 :=
  let ws := schedule block
  let r := (ws.zip k256).foldl sha256Round st
  { a := wadd st.a r.a, b := wadd st.b r.b, c := wadd st.c r.c, d := wadd st.d r.d
    e := wadd st.e r.e, f := wadd st.f r.f, g := wadd st.g r.g, h := wadd st.h r.h }

/-- Big-endian serialization of one word. -/
def wordBytes (w : Nat) : List Nat :=
  [(w >>> 24) % 256, (w >>> 16) % 256, (w >>> 8) % 256, w % 256]

/-- Serialization of the final state into the 32 digest bytes. -/
def digestBytes (st : H8) : List Nat :=
  wordBytes st.a ++ wordBytes st.b ++ wordBytes st.c ++ wordBytes st.d
    ++ wordBytes st.e ++ wordBytes st.f ++ wordBytes st.g ++ wordBytes st.h

/-- SHA-256 of a byte list. -/
def sha256 (msg : List Nat) : List Nat :=
  digestBytes ((chunks64 (padBytes msg)).foldl compress initH)

/-- The lowercase hex digit table of Go encoding/hex. -/
def hexTable : List Char := "0123456789abcdef".toList

/-- The two hex digits of a byte, high nibble first. -/
def hexByte (b : Nat) : List Char :=
  [hexTable.getD ((b >>> 4) % 16) '0', hexTable.getD (b % 16) '0']

/-- Go hex.EncodeToString on a byte list. -/
def hexEncodeToString (bs : List Nat) : String :=
  String.mk (bs.map hexByte).flatten

/-- The UTF-8 encoding of one character, as the Go string-to-bytes
conversion produces it. -/
def utf8Char (c : Char) : List Nat :=
  let n := c.toNat
  if n < 128 then [n]
  else if n < 2048 then [192 ||| (n >>> 6), 128 ||| (n &&& 63)]
  else if n < 65536 then
    [224 ||| (n >>> 12), 128 ||| ((n >>> 6) &&& 63), 128 ||| (n &&& 63)]
  else
    [240 ||| (n >>> 18), 128 ||| ((n >>> 12) &&& 63), 128 ||| ((n >>> 6) &&& 63),
     128 ||| (n &&& 63)]

/-- The bytes of a Go string. -/
def strBytes (s : String) : List Nat := (s.toList.map utf8Char).flatten

/-- Key padding of Go crypto/hmac: a key longer than the 64-byte block is
first hashed, then the key is zero-padded to the block size. -/
def hmacPadKey (key : List Nat) : List Nat :=
  let k := if key.length > 64 then sha256 key else key
  k ++ List.replicate (64 - k.length) 0

/-- The state of a Go crypto/hmac object keyed for SHA-256: the outer pad
prefix and the accumulated input of the inner hash. -/
structure HmacState where
  opadAcc : List Nat
  innerAcc : List Nat
  deriving Repr, DecidableEq

/-- hmac.New for SHA-256: prepares the inner and outer pads from the key. -/
def hmacNew (key : List Nat) : HmacState :=
  let k := hmacPadKey key
  { opadAcc := k.map (fun b => b ^^^ 92), innerAcc := k.map (fun b => b ^^^ 54) }

/-- Write on the hmac object: appends to the inner hash input. -/
def hmacWrite (st : HmacState) (data : List Nat) : HmacState :=
  { st with innerAcc := st.innerAcc ++ data }

/-- Sum on the hmac object: the outer hash of the pad and the inner digest. -/
def hmacSum (st : HmacState) : List Nat :=
  sha256 (st.opadAcc ++ sha256 st.innerAcc)

/-- The privateKeyFromFeed derivation of the feeder: an hmac object keyed by
the secret, written with the feed URL bytes, summed and hex encoded. -/
def privateKeyFromFeed (secret url : String) : String :=
  let m := hmacNew (strBytes secret)
  let m2 := hmacWrite m (strBytes url)
  hexEncodeToString (hmacSum m2)

/-- The one-shot HMAC-SHA256 formula of RFC 2104, written from the words of
the specification for comparison with the derivation above. -/
def hmacSha256 (key msg : List Nat) : List Nat :=
  let k := hmacPadKey key
  sha256 ((k.map (fun b => b ^^^ 92)) ++ sha256 ((k.map (fun b => b ^^^ 54)) ++ msg))

/-- The derived key as the specification words it: the lowercase hex
encoding of HMAC-SHA256 keyed by the secret over the feed URL bytes. -/
def derivedKeySpec (secret url : String) : String :=
  hexEncodeToString (hmacSha256 (strBytes secret) (strBytes url))

/-! ## Validation of the crypto embedding against published test vectors. -/

set_option maxRecDepth 100000

/-- FIPS 180-4 test vector: the SHA-256 digest of the empty message. -/
theorem sha256_empty_vector :
    hexEncodeToString (sha256 []) =
      "e3b0c44298fc1c149afbf4c8996fb92427ae41e4649b934ca495991b7852b855" := by
  rfl

/-- FIPS 180-4 test vector: the SHA-256 digest of the three bytes abc. -/
theorem sha256_abc_vector :
    hexEncodeToString (sha256 (strBytes "abc")) =
      "ba7816bf8f01cfea414140de5dae2223b00361a396177a9cb410ff61f20015ad" := by
  rfl

/-- RFC 4231 test case 2: the derivation applied to the key Jefe and its
28-byte data reproduces the published HMAC-SHA256 digest. -/
theorem hmac_rfc4231_case2 :
    privateKeyFromFeed "Jefe" "what do ya want for nothing?" =
      "5bdcc146bf60754e6a042426089575c75a003f089d2739839dec58b964ec3843" := by
  rfl

/-! ## Claim C4: the created-at override chain. -/

/-- C4: for every feed item, the synthesized event carries the published
timestamp when present, otherwise the updated timestamp when present,
otherwise the time of synthesis — the strict override chain of the source. -/
theorem c4_createdAt_override_chain (pubkey : String) (now : Int) (item : Item) :
    (itemToTextNote pubkey now item).createdAt =
      item.published.getD (item.updated.getD now) := by
  show resolveCreatedAt now item = _
  unfold resolveCreatedAt
  cases item.published <;> cases item.updated <;> rfl

/-! ## Claim C5: the content truncation oddity. -/

/-- C5: when the built content (bolded title, blank line, stripped
description) exceeds 250 characters, the synthesis appends the first 249
characters of that content and an ellipsis onto the existing content rather
than replacing it, and the link follows on its own paragraph; for a
title-less item with a 300-character stripped description the pre-link
content length is the original 300 plus the 250 of the appended suffix. -/
theorem c5_truncation_appends (item : Item) (h : (builtContent item).length > 250) :
    noteContent item =
        builtContent item ++ ((builtContent item).take 249 ++ "…".toList)
          ++ "\n\n".toList ++ item.link ∧
      (item.title = [] → item.description.length = 300 →
        (preLinkContent item).length = 300 + 250) := by
  have hpre : preLinkContent item =
      builtContent item ++ ((builtContent item).take 249 ++ "…".toList) := by
    unfold preLinkContent
    exact if_pos h
  refine ⟨?_, ?_⟩
  · unfold noteContent
    rw [hpre]
  · intro ht hd
    have hb : (builtContent item).length = 300 := by
      simp [builtContent, ht, hd]
    rw [hpre]
    simp [List.length_append, List.length_take, hb]

/-- Concrete title-less item with a 300-character stripped description. -/
def c5item : Item :=
  { title := [], description := List.replicate 300 'x', link := [],
    content := [], published := none, updated := none }

/-- Witness for C5 at a concrete 300-character description. -/
theorem c5_truncation_appends_witness :
    (preLinkContent c5item).length = 300 + 250 :=
  (c5_truncation_appends c5item (by decide)).2 rfl (by decide)

/-! ## Claims C1 and C2: the poller watermark is never advanced. -/

/-- Concrete item published at time 10 for the poller demonstrations. -/
def pItem10 : Item :=
  { title := [], description := [], link := [], content := [],
    published := some 10, updated := none }

/-- C1: evaluation of two consecutive poll passes over a fixed feed holding
one item published at time 10, with the watermark recorded at 5.  The first
pass emits the item but stores the loaded watermark back unchanged, so the
second pass emits the very same event again — the code does re-emit across
passes, against the claim. -/
theorem c1_poller_reemits_across_passes :
    (pollFeed "pk" "https://f" 0 [("https://f", WMVal.u32 5)] [pItem10]).1
        = [itemToTextNote "pk" 0 pItem10] ∧
      (pollFeed "pk" "https://f" 0
          (pollFeed "pk" "https://f" 0 [("https://f", WMVal.u32 5)] [pItem10]).2
          [pItem10]).1
        = [itemToTextNote "pk" 0 pItem10] := by
  decide

/-- C2: evaluation of one poll pass at the same input: the pass emits the
item with resolved timestamp 10, yet the watermark stored for the feed URL
is still the previous value 5, not the maximum timestamp of the pass. -/
theorem c2_poller_watermark_not_advanced :
    ((pollFeed "pk" "https://f" 0 [("https://f", WMVal.u32 5)] [pItem10]).1.map
        Event.createdAt = [10]) ∧
      wmLookup (pollFeed "pk" "https://f" 0 [("https://f", WMVal.u32 5)] [pItem10]).2
        "https://f" = some (WMVal.u32 5) := by
  decide

/-! ## Claim C3: emission eligibility versus the recorded watermark. -/

/-- Concrete item published at time 3, before the watermark used next. -/
def pItem3 : Item :=
  { title := [], description := [], link := [], content := [],
    published := some 3, updated := none }

/-- C3 counterexample: with the watermark recorded in the 64-bit encoding at
value 5, the poller emits an item whose resolved timestamp 3 is not strictly
after the watermark, because the shadowed ok flag makes the emission
condition vacuous. -/
theorem c3_i64_watermark_emits_stale_item :
    (pollFeed "pk" "https://f" 0 [("https://f", WMVal.i64 5)] [pItem3]).1
        = [itemToTextNote "pk" 0 pItem3] ∧
      (itemToTextNote "pk" 0 pItem3).createdAt ≤ 5 := by
  decide

/-- Lookup after a store at the same key yields the stored value. -/
theorem wmLookup_wmStore (wm : WM) (url : String) (v : WMVal) :
    wmLookup (wmStore wm url v) url = some v := by
  induction wm with
  | nil => simp [wmStore, wmLookup]
  | cons kv rest ih =>
      obtain ⟨k, w⟩ := kv
      by_cases hk : k = url
      · simp [wmStore, wmLookup, hk]
      · simp [wmStore, wmLookup, hk, ih]

/-- The poller item step leaves the watermark entry it reads unchanged. -/
theorem pollItem_lookup_eq (pubkey url : String) (now : Int) (wm : WM) (item : Item) :
    wmLookup (pollItem pubkey url now wm item).2 url = wmLookup wm url := by
  unfold pollItem
  cases h : wmLookup wm url with
  | none => simp [h]
  | some v =>
      cases v with
      | u32 n =>
          by_cases hlt : (n : Int) < (itemToTextNote pubkey now item).createdAt
          · simp [h, hlt, wmLookup_wmStore]
          · simp [h, hlt]
      | i64 n => simp [h, wmLookup_wmStore]

/-- An event emitted by the poller item step is the synthesis of the item,
and the watermark read for the feed URL was either a 32-bit value strictly
below the event time or any 64-bit value. -/
theorem pollItem_mem (pubkey url : String) (now : Int) (wm : WM) (item : Item)
    (e : Event) (he : e ∈ (pollItem pubkey url now wm item).1) :
    e = itemToTextNote pubkey now item ∧
      ((∃ v : Nat, wmLookup wm url = some (WMVal.u32 v) ∧ (v : Int) < e.createdAt) ∨
        (∃ v : Int, wmLookup wm url = some (WMVal.i64 v))) := by
  cases h : wmLookup wm url with
  | none =>
      simp only [pollItem, h] at he
      simp at he
  | some v =>
      cases v with
      | u32 n =>
          simp only [pollItem, h] at he
          by_cases hlt : (n : Int) < (itemToTextNote pubkey now item).createdAt
          · rw [if_pos hlt] at he
            simp at he
            subst he
            exact ⟨rfl, Or.inl ⟨n, rfl, hlt⟩⟩
          · rw [if_neg hlt] at he
            simp at he
      | i64 n =>
          simp only [pollItem, h] at he
          simp at he
          subst he
          exact ⟨rfl, Or.inr ⟨n, rfl⟩⟩

/-- All items of a feed pass the text-note loop of the query path when the
filter carries no time bounds, whatever the running maximum. -/
theorem queryItems_mem_all (pubkey : String) (now : Int) (f : Filter)
    (hs : f.since = none) (hu : f.untilT = none) :
    ∀ (items : List Item) (last : Nat), ∀ item ∈ items,
      itemToTextNote pubkey now item ∈ (queryItems pubkey now f items last).1 := by
  intro items
  induction items with
  | nil => intro last item hmem; cases hmem
  | cons it rest ih =>
      intro last item hmem
      rcases List.mem_cons.mp hmem with rfl | hmem
      · simp [queryItems, sinceOk, untilOk, hs, hu]
      · simp only [queryItems, sinceOk, untilOk, hs, hu]
        simp only [Bool.not_false, Bool.and_self, if_true]
        exact List.mem_cons_of_mem _ (ih _ item hmem)

/-- C3 amended: in the poller an item is emitted only if the feed has a
recorded watermark, and then only if the watermark is a 32-bit value
strictly below the resolved timestamp or is any 64-bit value (in which case
every item is emitted regardless of timestamp); when no watermark is
recorded the poller emits nothing for the feed.  The query path never reads
the watermark: for a filter without time bounds whose kinds include text
notes, every item of the feed is returned whatever the watermark map holds,
so in particular a feed with no watermark yet has all of its items
eligible there. -/
theorem c3_emission_characterization (pubkey url : String) (now : Int) (wm : WM)
    (items : List Item) :
    (∀ e ∈ (pollFeed pubkey url now wm items).1,
        ∃ item ∈ items, e = itemToTextNote pubkey now item ∧
          ((∃ v : Nat, wmLookup wm url = some (WMVal.u32 v) ∧ (v : Int) < e.createdAt) ∨
            (∃ v : Int, wmLookup wm url = some (WMVal.i64 v)))) ∧
      (wmLookup wm url = none → (pollFeed pubkey url now wm items).1 = []) ∧
      (∀ (env : QEnv) (f : Filter) (pk : String) (entity : Entity) (feed : Feed),
          env.db pk = some entity → env.feeds entity.url = Except.ok feed →
          f.since = none → f.untilT = none → kindsAllow f 1 = true →
          ∀ item ∈ feed.items,
            itemToTextNote pk env.now item ∈ (queryAuthor env f wm pk).1) := by
  have hchar : ∀ (w : WM), ∀ e ∈ (pollFeed pubkey url now w items).1,
      ∃ item ∈ items, e = itemToTextNote pubkey now item ∧
        ((∃ v : Nat, wmLookup w url = some (WMVal.u32 v) ∧ (v : Int) < e.createdAt) ∨
          (∃ v : Int, wmLookup w url = some (WMVal.i64 v))) := by
    induction items with
    | nil => intro w e he; simp [pollFeed] at he
    | cons it rest ih =>
        intro w e he
        rw [pollFeed] at he
        rcases List.mem_append.mp he with hl | hr
        · obtain ⟨heq, hcond⟩ := pollItem_mem pubkey url now w it e hl
          exact ⟨it, List.mem_cons_self it rest, heq, hcond⟩
        · obtain ⟨item, hmem, heq, hcond⟩ :=
            ih (pollItem pubkey url now w it).2 e hr
          rw [pollItem_lookup_eq] at hcond
          exact ⟨item, List.mem_cons_of_mem _ hmem, heq, hcond⟩
  refine ⟨hchar wm, ?_, ?_⟩
  · intro hnone
    rw [List.eq_nil_iff_forall_not_mem]
    intro e he
    obtain ⟨item, _, _, hcond⟩ := hchar wm e he
    rcases hcond with ⟨v, hv, _⟩ | ⟨v, hv⟩ <;> rw [hnone] at hv <;> cases hv
  · intro env f pk entity feed hdb hfeed hs hu hk1 item hitem
    have hmem := queryItems_mem_all pk env.now f hs hu feed.items 0 item hitem
    by_cases hk0 : kindsAllow f 0
    · simp only [queryAuthor, hdb, hfeed, hk0, if_true, sinceOk, untilOk, hs, hu,
        Bool.not_true, Bool.not_false, Bool.false_eq_true, if_false, hk1]
      exact List.mem_append_right _ hmem
    · simp only [queryAuthor, hdb, hfeed, hk0, Bool.false_eq_true, if_false, hk1,
        if_true]
      exact List.mem_append_right _ hmem

/-- Concrete environment for the C3 witness: one registered author whose
feed holds the single item published at time 3. -/
def c3env : QEnv :=
  { db := fun pk =>
      if pk = "pk" then some { privateKey := "sk", url := "https://f" } else none
    feeds := fun u =>
      if u = "https://f" then Except.ok { items := [pItem3] } else Except.error "x"
    setMetaEvt := fun _ _ => { pubKey := "", createdAt := 0, kind := 0, content := [] }
    now := 0 }

/-- Concrete unbounded filter for the C3 witness. -/
def c3filter : Filter :=
  { ids := none, tags := [], authors := ["pk"], kinds := none,
    since := none, untilT := none }

/-- Witness for the C3 amended theorem: the query path returns the item of a
feed whose URL has no recorded watermark. -/
theorem c3_emission_characterization_witness :
    itemToTextNote "pk" 0 pItem3 ∈ (queryAuthor c3env c3filter [] "pk").1 :=
  (c3_emission_characterization "pk" "https://f" 0 [] []).2.2 c3env c3filter "pk"
    { privateKey := "sk", url := "https://f" } { items := [pItem3] }
    rfl rfl rfl rfl rfl pItem3 (by simp)

/-! ## Claim C8: the metadata fetch gate. -/

/-- C8 counterexample: a HEAD response with the non-2xx status 500 but an
admissible content-type does not fail fast — the fetcher proceeds to issue
the GET (second component true) and succeeds, because the source never
examines the HEAD status code. -/
theorem c8_head_status_not_gated :
    fetchMetaData (some { status := 500, contentType := "text/html" })
        (some { status := 200, parseOk := true }) = (FetchOutcome.ok, true) := by
  decide

/-- C8 amended: the fetcher returns the invalid-format error without issuing
the GET exactly when the HEAD succeeded at transport level and its
content-type lies outside the admissible set; the HEAD status code plays no
role.  In particular a HEAD content-type of application/json fails fast with
no GET issued, whatever the status. -/
theorem c8_invalid_format_gate (head : Option HeadResp) (get : Option GetResp) :
    ((fetchMetaData head get = (FetchOutcome.invalidFormat, false)) ↔
        (∃ h, head = some h ∧ validContentType h.contentType = false)) ∧
      (∀ s : Nat,
        fetchMetaData (some { status := s, contentType := "application/json" }) get
          = (FetchOutcome.invalidFormat, false)) := by
  have hjson : validContentType "application/json" = false := by decide
  constructor
  · cases head with
    | none => simp [fetchMetaData]
    | some h =>
        by_cases hv : validContentType h.contentType
        · constructor
          · intro hi
            exfalso
            cases get with
            | none => simp [fetchMetaData, hv] at hi
            | some g =>
                simp only [fetchMetaData, hv, Bool.not_true, Bool.false_eq_true,
                  if_false] at hi
                split at hi
                · simp at hi
                · split at hi <;> simp at hi
          · rintro ⟨h2, heq, hv2⟩
            exfalso
            rw [Option.some.injEq] at heq
            subst heq
            rw [hv] at hv2
            cases hv2
        · constructor
          · intro _
            exact ⟨h, rfl, by simpa using hv⟩
          · intro _
            simp [fetchMetaData, hv]
  · intro s
    simp [fetchMetaData, hjson]

/-! ## Claim C9: the feed cache wrapper. -/

/-- C9: a cache hit returns the stored feed with no parser call and an
unchanged cache; a miss with a successful fetch clears every item content
field, stores the cleaned feed under the URL and returns it; a failed fetch
stores nothing, so the cache is unchanged and a subsequent identical call
invokes the parser again. -/
theorem c9_parseFeed_cache (fetch : String → Except String Feed)
    (c : FeedCache) (url : String) :
    (∀ f, cacheGet c url = some f → parseFeed fetch c url = (Except.ok f, c, false)) ∧
      (∀ feed, cacheGet c url = none → fetch url = Except.ok feed →
        parseFeed fetch c url =
          (Except.ok (clearContents feed), cacheSet c url (clearContents feed), true)) ∧
      (∀ e, cacheGet c url = none → fetch url = Except.error e →
        parseFeed fetch c url = (Except.error e, c, true) ∧
          (parseFeed fetch (parseFeed fetch c url).2.1 url).2.2 = true) := by
  refine ⟨?_, ?_, ?_⟩
  · intro f h
    simp [parseFeed, h]
  · intro feed h hf
    simp [parseFeed, h, hf]
  · intro e h hf
    refine ⟨by simp [parseFeed, h, hf], ?_⟩
    simp [parseFeed, h, hf]

/-- Witness for C9: a fetch failure on an empty cache leaves the cache
empty and the next call consults the parser again. -/
theorem c9_parseFeed_cache_witness :
    parseFeed (fun _ => Except.error "boom") [] "u"
        = (Except.error "boom", [], true) ∧
      (parseFeed (fun _ => Except.error "boom")
        (parseFeed (fun _ => Except.error "boom") [] "u").2.1 "u").2.2 = true :=
  (c9_parseFeed_cache (fun _ => Except.error "boom") [] "u").2.2 "boom" rfl rfl

/-! ## Claim C10: the query early return. -/

/-- C10: a filter with a non-nil ids slice or a non-empty tag map makes the
query callback return the empty list with no error and leave the watermark
untouched, without consulting any collaborator — the result is identical
under any environment. -/
theorem c10_query_early_return (env env2 : QEnv) (wm : WM) (f : Filter)
    (h : f.ids ≠ none ∨ f.tags ≠ []) :
    queryEvents env wm f = (([], none), wm, false) ∧
      queryEvents env wm f = queryEvents env2 wm f := by
  have hg : (f.ids.isSome || decide (0 < f.tags.length)) = true := by
    rcases h with h | h
    · rw [Bool.or_eq_true]
      exact Or.inl (Option.ne_none_iff_isSome.mp h)
    · rw [Bool.or_eq_true]
      right
      simpa [List.length_pos] using h
  constructor <;> simp [queryEvents, hg]

/-- Trivial environment for the C10 witness. -/
def c10env : QEnv :=
  { db := fun _ => none
    feeds := fun _ => Except.error "x"
    setMetaEvt := fun _ _ => { pubKey := "", createdAt := 0, kind := 0, content := [] }
    now := 0 }

/-- Filter with a present (empty) ids slice for the C10 witness. -/
def c10filter : Filter :=
  { ids := some [], tags := [], authors := ["pk"], kinds := none,
    since := none, untilT := none }

/-- Witness for C10 at a concrete filter carrying a non-nil ids slice. -/
theorem c10_query_early_return_witness :
    queryEvents c10env [] c10filter = (([], none), [], false) :=
  (c10_query_early_return c10env c10env [] c10filter (Or.inl (by simp [c10filter]))).1

/-! ## Claim C6: the key derivation. -/

/-- The SHA-256 digest always serializes to 32 bytes. -/
theorem sha256_length (msg : List Nat) : (sha256 msg).length = 32 := rfl

/-- The hex encoding of a byte list has twice its length. -/
theorem hexEncodeToString_length (bs : List Nat) :
    (hexEncodeToString bs).length = 2 * bs.length := by
  show ((bs.map hexByte).flatten).length = 2 * bs.length
  induction bs with
  | nil => rfl
  | cons b rest ih =>
      simp only [List.map_cons, List.flatten_cons, List.length_append, ih, hexByte,
        List.length_cons, List.length_nil]
      omega

/-- A lookup in the hex table at a reduced index stays in the table. -/
theorem hexTable_getD_mem (j : Nat) : hexTable.getD (j % 16) '0' ∈ hexTable := by
  have h : j % 16 < 16 := Nat.mod_lt _ (by norm_num)
  set i := j % 16 with hi
  interval_cases i <;> decide

/-- Every character the hex encoding produces is a lowercase hex digit. -/
theorem hexEncodeToString_chars (bs : List Nat) :
    ((hexEncodeToString bs).toList.all fun c => decide (c ∈ hexTable)) = true := by
  show ((bs.map hexByte).flatten.all fun c => decide (c ∈ hexTable)) = true
  rw [List.all_eq_true]
  intro c hc
  rw [List.mem_flatten] at hc
  obtain ⟨l, hl, hcl⟩ := hc
  rw [List.mem_map] at hl
  obtain ⟨b, _, rfl⟩ := hl
  unfold hexByte at hcl
  simp only [List.mem_cons, List.not_mem_nil, or_false] at hcl
  rcases hcl with rfl | rfl
  · exact decide_eq_true (hexTable_getD_mem (b >>> 4))
  · exact decide_eq_true (hexTable_getD_mem b)

/-- C6: the derivation equals the lowercase hex encoding of HMAC-SHA256
keyed by the secret over the feed URL bytes — the object-style computation
of the source coincides with the one-shot RFC 2104 formula the
specification words, for every secret and URL; the output is a 64-character
string over the lowercase hex alphabet.  Determinism and freedom from
randomness are structural: the derivation is a function of exactly these
two inputs. -/
theorem c6_derive_hmac_hex (secret url : String) :
    privateKeyFromFeed secret url = derivedKeySpec secret url ∧
      (privateKeyFromFeed secret url).length = 64 ∧
      ((privateKeyFromFeed secret url).toList.all fun c => decide (c ∈ hexTable))
        = true := by
  refine ⟨rfl, ?_, ?_⟩
  · show (hexEncodeToString (hmacSum _)).length = 64
    rw [hexEncodeToString_length]
    unfold hmacSum
    rw [sha256_length]
  · exact hexEncodeToString_chars _

/-! ## Claim C7: the locate not-found condition. -/

/-- A string of positive length is nonempty. -/
theorem strNe_of_lengthPos (s : String) (h : 0 < s.length) : s ≠ "" := by
  intro he
  subst he
  exact absurd h (by decide)

/-- A nonempty string has positive length. -/
theorem lengthPos_of_strNe (s : String) (h : s ≠ "") : 0 < s.length := by
  cases s with
  | mk data =>
      cases data with
      | nil => exact absurd rfl h
      | cons a as => simp [String.length]

/-- The Go path.Clean model never returns the empty string. -/
theorem pathClean_ne_empty (p : String) : pathClean p ≠ "" := by
  unfold pathClean
  split
  · decide
  · dsimp only
    split
    · split
      · decide
      · apply strNe_of_lengthPos
        rw [String.length_append]
        have h1 : ("/" : String).length = 1 := rfl
        omega
    · split
      · decide
      · assumption

/-- Joining a nonempty element against any base yields a nonempty URL. -/
theorem urljoin_ne_empty (base elem : String) (he : elem ≠ "") :
    urljoin base elem ≠ "" := by
  unfold urljoin urlString
  dsimp only
  split
  · unfold pathJoin
    split
    · exact pathClean_ne_empty _
    · exact pathClean_ne_empty _
  · apply strNe_of_lengthPos
    rw [String.length_append, String.length_append, String.length_append]
    have h3 : ("://" : String).length = 3 := rfl
    omega

/-- The link scan returns empty exactly when every marker finds no link
with a nonempty href. -/
theorem linkSearch_eq_empty_iff (url : String) (links : List LinkEl)
    (ts : List String) :
    linkSearch url links ts = "" ↔ ∀ t ∈ ts, firstHref links t = "" := by
  induction ts with
  | nil => simp [linkSearch]
  | cons t rest ih =>
      by_cases h : firstHref links t = ""
      · simp only [linkSearch, if_pos h, ih]
        constructor
        · intro ha t2 ht2
          rcases List.mem_cons.mp ht2 with rfl | ht2
          · exact h
          · exact ha t2 ht2
        · intro ha t2 ht2
          exact ha t2 (List.mem_cons_of_mem _ ht2)
      · have hne : linkSearch url links (t :: rest) ≠ "" := by
          simp only [linkSearch, if_neg h]
          by_cases hp : goStartsWith (firstHref links t) "http" = true
          · rw [if_pos hp]
            exact h
          · rw [if_neg hp]
            exact urljoin_ne_empty url _ h
        constructor
        · intro hL
          exact absurd hL hne
        · intro hR
          exact absurd (hR t (List.mem_cons_self t rest)) h

/-- C7 counterexample: a GET outcome with the 3xx status 301 and a
content-type that contains a feed marker still yields not-found, because
the source rejects every status of 300 or more before looking at the
content-type. -/
theorem c7_redirect_status_not_found :
    getFeedURL "https://x" (GetOutcome.resp 301 "application/rss+xml" (some [])) = ""
      ∧ 200 ≤ 301 ∧ 301 < 400
      ∧ (feedTypes.any fun t => goContains "application/rss+xml" t) = true := by
  decide

/-- C7 amended: for a nonempty site URL, locate returns not-found exactly
when the GET has a transport error, or a status of 300 or more (3xx
included), or when no feed marker occurs in the content-type and no usable
feed link exists (the response is not HTML, its body does not parse, or no
link carries a marker type with a nonempty href). -/
theorem c7_locate_notfound_iff (url : String) (r : GetOutcome) (hurl : url ≠ "") :
    (getFeedURL url r = "") ↔ locateNotFoundSpec r = true := by
  cases r with
  | err => simp [getFeedURL, locateNotFoundSpec]
  | resp status ct doc =>
      by_cases hs : 300 ≤ status
      · simp [getFeedURL, locateNotFoundSpec, hs]
      · by_cases hm : (feedTypes.any fun t => goContains ct t) = true
        · simp [getFeedURL, locateNotFoundSpec, hs, hm, hurl]
        · by_cases hh : goContains ct "text/html" = true
          · cases doc with
            | none => simp [getFeedURL, locateNotFoundSpec, hs, hm, hh]
            | some links =>
                simp only [getFeedURL, locateNotFoundSpec, if_neg hs, hm,
                  Bool.false_eq_true, if_false, hh, if_true]
                rw [linkSearch_eq_empty_iff, List.all_eq_true]
                constructor
                · intro ha t ht
                  rw [beq_iff_eq]
                  exact ha t ht
                · intro ha t ht
                  exact beq_iff_eq.mp (ha t ht)
          · simp [getFeedURL, locateNotFoundSpec, hs, hm, hh]

/-- Witness for the C7 amended theorem at a transport error. -/
theorem c7_locate_notfound_iff_witness :
    (getFeedURL "https://x" GetOutcome.err = "") ↔
      locateNotFoundSpec GetOutcome.err = true :=
  c7_locate_notfound_iff "https://x" GetOutcome.err (by decide)

end Relayer
